import Mathlib

/-!
Verification development for `flatpak-remote-metadata.py`.

The script is shallowly embedded below: pure helpers (`is_built_extension`,
the `MEATADATA_TYPES` schema table, `get_value`, `metadata_to_dict`, the ref
selection loop of `get_apps_metadata`) are translated to Lean functions;
the GLib/OSTree/Flatpak collaborators (keyfile accessors, content-store
reads) are modelled as explicit records of fallible functions, and Python
exceptions become `Except` errors.
-/

namespace FlatpakRemoteMetadata

/-- JSON-like values, used both for the projected metadata dictionaries and
for parsed manifest documents.  Numbers are modelled as integers (the
keyfile integer accessor and the claims only involve integers). -/
inductive Json where
  | null
  | bool (b : Bool)
  | num (n : Int)
  | str (s : String)
  | arr (items : List Json)
  | obj (fields : List (String × Json))
deriving Repr

/-- Characters that Python treats as whitespace (`str.split` with no
separator, and `\s` in regular expressions over `str`).  ASCII whitespace
plus the file/group/record/unit separators and the common Unicode spaces. -/
def pyIsSpace (c : Char) : Bool :=
  c = ' ' || c = '\t' || c = '\n' || c = '\r' || c = '\x0b' || c = '\x0c' ||
  c = '\x1c' || c = '\x1d' || c = '\x1e' || c = '\x1f' || c = '\x85' ||
  c = '\xa0' || c = '\u1680' ||
  ('\u2000' ≤ c && c ≤ '\u200a') ||
  c = '\u2028' || c = '\u2029' || c = '\u202f' || c = '\u205f' ||
  c = '\u3000'

/-- Python `s.endswith(t)`. -/
def strEndsWith (s t : String) : Bool :=
  List.isSuffixOf t.data s.data

/-- Python `s.startswith(t)`. -/
def strStartsWith (s t : String) : Bool :=
  List.isPrefixOf t.data s.data

/-- Python `s.split(maxsplit=1)`: leading whitespace is discarded, the first
whitespace-delimited token is returned, and the remainder (with the
delimiting whitespace run discarded but trailing whitespace kept) is the
second element when it is non-empty. -/
def pySplitMax1 (s : String) : List String :=
  let l := s.data.dropWhile pyIsSpace
  if l.isEmpty then []
  else
    let tok := l.takeWhile (fun c => !pyIsSpace c)
    let rest := (l.dropWhile (fun c => !pyIsSpace c)).dropWhile pyIsSpace
    if rest.isEmpty then [String.mk tok] else [String.mk tok, String.mk rest]

/-- The value kinds appearing in the `MEATADATA_TYPES` table of the script:
Python `str`, `bool`, `int` and `list`. -/
inductive MKind where
  | string
  | boolK
  | intK
  | listK
deriving DecidableEq, Repr

/-- Full-string match for the regex `Context` (a literal). -/
def reContext (g : String) : Bool := g = "Context"

/-- Full-string match for the regex `Extension \S+`: the literal
`"Extension "` followed by one or more non-whitespace characters. -/
def reExtGroup (g : String) : Bool :=
  strStartsWith g "Extension " &&
    (let rest := g.data.drop 10
     !rest.isEmpty && rest.all (fun c => !pyIsSpace c))

/-- Full-string match for the regex `ExtensionOf` (a literal). -/
def reExtensionOf (g : String) : Bool := g = "ExtensionOf"

/-- Full-string match for the regex `(Application|Runtime)`. -/
def reAppOrRuntime (g : String) : Bool := g = "Application" || g = "Runtime"

/-- Full-string match for the regex `Build` (a literal). -/
def reBuild (g : String) : Bool := g = "Build"

/-- Full-string match for the regex `.*`: `.` matches every character except
a newline, so the full match succeeds exactly when the key has no newline. -/
def reAnyKey (k : String) : Bool := k.data.all (fun c => c != '\n')

/-- Full-string match for a literal key pattern (all key patterns in the
table other than `.*` are regex literals). -/
def reLit (p : String) (k : String) : Bool := k = p

/-- The `MEATADATA_TYPES` table of the script (the misspelling is the
script's): ordered rules of (group pattern, key pattern, value kind), each
pattern represented by its full-match function. -/
def MEATADATA_TYPES : List ((String → Bool) × (String → Bool) × MKind) :=
  [ (reContext, reAnyKey, MKind.listK),
    (reExtGroup, reLit "autodelete", MKind.boolK),
    (reExtGroup, reLit "no-autodownload", MKind.boolK),
    (reExtGroup, reLit "subdirectories", MKind.boolK),
    (reExtGroup, reLit "locale-subset", MKind.boolK),
    (reExtGroup, reLit "versions", MKind.listK),
    (reExtGroup, reLit "merge-dirs", MKind.listK),
    (reExtensionOf, reLit "priority", MKind.intK),
    (reAppOrRuntime, reLit "required-flatpak", MKind.listK),
    (reAppOrRuntime, reLit "tags", MKind.listK),
    (reBuild, reLit "built-extensions", MKind.listK) ]

/-- One rule of the table applies when its group pattern fully matches the
group and its key pattern fully matches the key (the condition of the loop
in `get_value`). -/
def ruleMatches (r : (String → Bool) × (String → Bool) × MKind)
    (group key : String) : Bool :=
  r.1 group && r.2.1 key

/-- The rule dispatch of `get_value` (lines 62-70): the kind of the first
rule of `MEATADATA_TYPES` whose patterns fully match, `string` when no rule
matches. -/
def classify (group key : String) : MKind :=
  match MEATADATA_TYPES.find? (fun r => ruleMatches r group key) with
  | some r => r.2.2
  | none => MKind.string

/-- `is_built_extension` (lines 104-105 of the script). -/
def is_built_extension (app_id : String) : Bool :=
  strEndsWith app_id ".Sources" || strEndsWith app_id ".Locale" ||
    strEndsWith app_id ".Debug"

/-- A loaded keyfile, modelled as its ordered groups, each an ordered list
of key/raw-value entries (the raw value is the untyped string stored in the
keyfile; the typed accessors below parse it). -/
structure KeyFile where
  entries : List (String × List (String × String))

/-- Raw value lookup inside the keyfile model. -/
def KeyFile.lookupRaw (kf : KeyFile) (group key : String) : Option String :=
  match kf.entries.find? (fun e => decide (e.1 = group)) with
  | none => none
  | some e => (e.2.find? (fun p => decide (p.1 = key))).map (fun p => p.2)

/-- Models the external `GLib.KeyFile.get_groups`. -/
def KeyFile.get_groups (kf : KeyFile) : List String :=
  kf.entries.map (fun e => e.1)

/-- Models the external `GLib.KeyFile.get_keys` for a listed group. -/
def KeyFile.get_keys (kf : KeyFile) (group : String) : List String :=
  match kf.entries.find? (fun e => decide (e.1 = group)) with
  | some e => e.2.map (fun p => p.1)
  | none => []

/-- Models the boolean parse of `GLib.KeyFile.get_boolean`: `true`/`1` and
`false`/`0` are accepted, anything else is an error. -/
def parse_boolean (s : String) : Option Bool :=
  if s = "true" || s = "1" then some true
  else if s = "false" || s = "0" then some false
  else none

/-- Splits a character list at every `;` (GLib string-list separator). -/
def splitSemis : List Char → List (List Char)
  | [] => [[]]
  | c :: rest =>
      match splitSemis rest with
      | [] => if c = ';' then [[], []] else [[c]]
      | cur :: others =>
          if c = ';' then [] :: cur :: others else (c :: cur) :: others

/-- Models the list parse of `GLib.KeyFile.get_string_list`: elements are
separated by `;`, a trailing separator is optional, the empty value is the
empty list. -/
def parse_string_list (s : String) : List String :=
  let l := if strEndsWith s ";" then s.data.dropLast else s.data
  if l.isEmpty && s.data.isEmpty then []
  else (splitSemis l).map String.mk

/-- Accumulates a decimal digit list; fails on a non-digit or an empty list. -/
def parseNatDigits (l : List Char) : Option Nat :=
  l.foldl
    (fun acc c =>
      acc.bind (fun n =>
        if '0' ≤ c ∧ c ≤ '9' then some (n * 10 + (c.toNat - '0'.toNat))
        else none))
    (if l.isEmpty then none else some 0)

/-- Models the integer parse of `GLib.KeyFile.get_integer`. -/
def parse_integer (s : String) : Option Int :=
  match s.data with
  | '-' :: rest => (parseNatDigits rest).map (fun n => -(n : Int))
  | l => (parseNatDigits l).map (fun n => (n : Int))

/-- Models `GLib.KeyFile.get_string` (escape-sequence processing of the
external parser is not modelled; values are returned as stored). -/
def KeyFile.get_string (kf : KeyFile) (group key : String) :
    Except String String :=
  match kf.lookupRaw group key with
  | some v => .ok v
  | none => .error "GLib.Error: key not found"

/-- Models `GLib.KeyFile.get_boolean`. -/
def KeyFile.get_boolean (kf : KeyFile) (group key : String) :
    Except String Bool :=
  match kf.lookupRaw group key with
  | some v =>
      match parse_boolean v with
      | some b => .ok b
      | none => .error "GLib.Error: invalid boolean value"
  | none => .error "GLib.Error: key not found"

/-- Models `GLib.KeyFile.get_string_list`. -/
def KeyFile.get_string_list (kf : KeyFile) (group key : String) :
    Except String (List String) :=
  match kf.lookupRaw group key with
  | some v => .ok (parse_string_list v)
  | none => .error "GLib.Error: key not found"

/-- Models `GLib.KeyFile.get_integer`. -/
def KeyFile.get_integer (kf : KeyFile) (group key : String) :
    Except String Int :=
  match kf.lookupRaw group key with
  | some v =>
      match parse_integer v with
      | some n => .ok n
      | none => .error "GLib.Error: invalid integer value"
  | none => .error "GLib.Error: key not found"

/-- `get_value` (lines 59-70): pick the typed accessor selected by the
first matching rule of `MEATADATA_TYPES`, falling back to `get_string`. -/
def get_value (metadata : KeyFile) (group key : String) :
    Except String Json :=
  match classify group key with
  | MKind.boolK => (metadata.get_boolean group key).map Json.bool
  | MKind.listK =>
      (metadata.get_string_list group key).map
        (fun l => Json.arr (l.map Json.str))
  | MKind.intK => (metadata.get_integer group key).map Json.num
  | MKind.string => (metadata.get_string group key).map Json.str

/-- Association lookup in a JSON object, with a default (Python
`dict.setdefault` read part). -/
def assocGetD (kvs : List (String × Json)) (k : String) (d : Json) : Json :=
  match kvs.find? (fun p => decide (p.1 = k)) with
  | some p => p.2
  | none => d

/-- Association update in a JSON object: an existing key keeps its position
and gets the new value, a new key is appended (Python dict assignment). -/
def assocSet : List (String × Json) → String → Json → List (String × Json)
  | [], k, v => [(k, v)]
  | (k0, v0) :: rest, k, v =>
      if k0 = k then (k0, v) :: rest else (k0, v0) :: assocSet rest k v

/-- Views a JSON value as an object; a non-object is the Python
`AttributeError`/`TypeError` raised when `setdefault`/item assignment is
applied to a non-dict. -/
def asObj : Json → Except String (List (String × Json))
  | Json.obj kvs => .ok kvs
  | _ => .error "TypeError: not a dict"

/-- One iteration of the inner loop of `metadata_to_dict` (lines 80-87):
route the key of the given group into the result, reshaping
`Extension <id>` groups under the synthetic `Extension` entry. -/
def projectKeyEntry (metadata : KeyFile) (result : List (String × Json))
    (group key : String) : Except String (List (String × Json)) :=
  if strStartsWith group "Extension " then
    match pySplitMax1 group with
    | [_, extension_id] => do
        let parent ← asObj (assocGetD result "Extension" (Json.obj []))
        let inner ← asObj (assocGetD parent extension_id (Json.obj []))
        let v ← get_value metadata group key
        .ok (assocSet result "Extension"
              (Json.obj (assocSet parent extension_id
                (Json.obj (assocSet inner key v)))))
    | _ => .error "ValueError: not enough values to unpack"
  else do
    let g ← asObj (assocGetD result group (Json.obj []))
    let v ← get_value metadata group key
    .ok (assocSet result group (Json.obj (assocSet g key v)))

/-- The key loop of `metadata_to_dict` for one group. -/
def projectGroup (metadata : KeyFile) (group : String) :
    List (String × Json) → List String →
    Except String (List (String × Json))
  | result, [] => .ok result
  | result, key :: rest => do
      let r ← projectKeyEntry metadata result group key
      projectGroup metadata group r rest

/-- The group loop of `metadata_to_dict`. -/
def projectGroups (metadata : KeyFile) :
    List (String × Json) → List String →
    Except String (List (String × Json))
  | result, [] => .ok result
  | result, group :: rest => do
      let r ← projectGroup metadata group result (metadata.get_keys group)
      projectGroups metadata r rest

/-- `metadata_to_dict` (lines 73-88).  `none` maps to `none`; any exception
raised by a typed accessor or by the `Extension` group unpack propagates as
an error. -/
def metadata_to_dict : Option KeyFile → Except String (Option Json)
  | none => .ok none
  | some metadata => do
      let kvs ← projectGroups metadata [] metadata.get_groups
      .ok (some (Json.obj kvs))

/-- The resolved CLI options (the `Options` dataclass, lines 48-56).
`refs` is `none` when the `--ref` option was not given (argparse default `None`). -/
structure Options where
  remote_name : String
  remote_url : Option String
  refs : Option (List String)
  pull : Bool
  get_metadata : Bool
  get_manifest : Bool
  get_built_extensions : Bool

/-- The parsed argparse namespace of `main` (lines 200-211): `store_true`
flags default to `false`, `--ref` and the optional strings to `none`. -/
structure Args where
  url : Option String
  ref : Option (List String)
  no_pull : Bool
  no_metadata : Bool
  no_manifest : Bool
  no_built_extensions : Bool
  verbose : Bool
  output : Option String
  repo_name : String

/-- The `Options(...)` construction of `main` (lines 213-219). -/
def mkOptions (args : Args) : Options :=
  { remote_name := args.repo_name
    remote_url := args.url
    refs := args.ref
    pull := !args.no_pull
    get_metadata := !args.no_metadata
    get_manifest := !args.no_manifest
    get_built_extensions := !args.no_built_extensions }

/-- One remote ref as enumerated by `list_remote_refs_sync_full`: the
attributes the script reads.  `eol`/`eol_rebase` are the optional
end-of-life strings returned by `get_eol`/`get_eol_rebase`;
`metadata_bytes` is the embedded metadata returned by `get_metadata`. -/
structure FlatpakRef where
  format_ref : String
  name : String
  arch : String
  eol : Option String
  eol_rebase : Option String
  metadata_bytes : String

/-- Python truthiness of an optional string (`None` and `""` are falsy). -/
def pyTruthyOptStr : Option String → Bool
  | none => false
  | some s => !(s = "")

/-- Python truthiness of an optional list (`None` and `[]` are falsy). -/
def pyTruthyOptList : Option (List String) → Bool
  | none => false
  | some l => !l.isEmpty

/-- Python `x in opts.refs` (`False` when absent; exact string member). -/
def pyElem (x : String) : Option (List String) → Bool
  | none => false
  | some l => List.elem x l

/-- One iteration of the ref selection loop of `get_apps_metadata`
(lines 128-139): each `continue` keeps the accumulator, otherwise the ref
is appended. -/
def selectStep (opts : Options) (refs : List FlatpakRef)
    (ref : FlatpakRef) : List FlatpakRef :=
  if pyTruthyOptList opts.refs && !pyElem ref.format_ref opts.refs then refs
  else if ref.arch != "x86_64" then refs
  else if pyTruthyOptStr ref.eol || pyTruthyOptStr ref.eol_rebase then refs
  else if !opts.get_built_extensions && is_built_extension ref.name then refs
  else refs ++ [ref]

/-- The ref selection loop of `get_apps_metadata` over the enumerated
remote refs. -/
def selectRefs (allRefs : List FlatpakRef) (opts : Options) :
    List FlatpakRef :=
  allRefs.foldl (selectStep opts) []

/-- The combined survival predicate of the four `continue` conditions. -/
def keepRef (opts : Options) (ref : FlatpakRef) : Bool :=
  !(pyTruthyOptList opts.refs && !pyElem ref.format_ref opts.refs) &&
  !(ref.arch != "x86_64") &&
  !(pyTruthyOptStr ref.eol || pyTruthyOptStr ref.eol_rebase) &&
  !(!opts.get_built_extensions && is_built_extension ref.name)

/-- The first three `continue` conditions (everything but the
built-extension rule). -/
def keepRefBase (opts : Options) (ref : FlatpakRef) : Bool :=
  !(pyTruthyOptList opts.refs && !pyElem ref.format_ref opts.refs) &&
  !(ref.arch != "x86_64") &&
  !(pyTruthyOptStr ref.eol || pyTruthyOptStr ref.eol_rebase)

/-- A resolved content-store root (the `ref_root` returned by
`OSTree.Repo.read_commit`), abstract. -/
structure OstreeRoot where
  id : String

/-- A `GLib.Error` as the script distinguishes it: either it matches
`Gio.IOErrorEnum.NOT_FOUND` or it does not. -/
inductive GErr where
  | notFound (msg : String)
  | otherErr (msg : String)

/-- Whether the error matches the `NOT_FOUND` condition. -/
def GErr.isNotFound : GErr → Bool
  | .notFound _ => true
  | .otherErr _ => false

/-- The message of the error. -/
def GErr.msg : GErr → String
  | .notFound m => m
  | .otherErr m => m

/-- The external content-store and parsing collaborators used per ref:
commit-to-root resolution, file reads under a root (`load_ostree_file`),
keyfile parsing (`GLib.KeyFile.load_from_bytes`) and JSON parsing
(`json.load`).  File contents are byte strings. -/
structure World where
  read_commit : String → Except GErr OstreeRoot
  load_file : OstreeRoot → String → Except GErr String
  keyfile_of : String → Except String KeyFile
  json_of : String → Except String Json

/-- Log events the orchestration emits (only the error-severity message of
the `NOT_FOUND` fallback is observable in the claims). -/
inductive LogEntry where
  | errorLog (msg : String)

/-- A fatal error of the orchestration: an uncaught `GLib.Error` or an
uncaught parse error. -/
inductive RunError where
  | glib (e : GErr)
  | parse (msg : String)

/-- Lines 165-172: resolve the ref's commit root; a `NOT_FOUND` failure is
logged at error severity and treated as "no root", any other failure
propagates. -/
def resolve_root (w : World) (ref : FlatpakRef) :
    Except RunError (Option OstreeRoot × List LogEntry) :=
  match w.read_commit ref.format_ref with
  | .ok root => .ok (some root, [])
  | .error e =>
      if e.isNotFound then .ok (none, [LogEntry.errorLog e.msg])
      else .error (RunError.glib e)

/-- Lines 174-182: when `opts.get_metadata`, load the keyfile from the
local `/metadata` file when a root was resolved, else from the ref's
embedded metadata bytes; keyfile parse failures propagate. -/
def load_metadata_stage (w : World) (opts : Options) (ref : FlatpakRef)
    (root? : Option OstreeRoot) : Except RunError (Option KeyFile) :=
  if opts.get_metadata then do
    let bytes ←
      match root? with
      | some root => (w.load_file root "metadata").mapError RunError.glib
      | none => (.ok ref.metadata_bytes : Except RunError String)
    let kf ← (w.keyfile_of bytes).mapError RunError.parse
    .ok (some kf)
  else .ok none

/-- Lines 184-195: read and JSON-parse `/files/manifest.json` only when
`opts.get_manifest` holds, a root was resolved, and the ref is not a built
extension; a `NOT_FOUND` read yields `none`, other read errors and parse
errors propagate; otherwise the manifest is `none`. -/
def load_manifest_stage (w : World) (opts : Options) (ref : FlatpakRef)
    (root? : Option OstreeRoot) : Except RunError (Option Json) :=
  match opts.get_manifest, root?, is_built_extension ref.name with
  | true, some root, false =>
      match w.load_file root "files/manifest.json" with
      | .ok bytes => ((w.json_of bytes).mapError RunError.parse).map some
      | .error e =>
          if e.isNotFound then .ok none else .error (RunError.glib e)
  | _, _, _ => .ok none

/-- The per-ref body of the loop in `get_apps_metadata` (lines 163-197),
producing the yielded (logs, keyfile, manifest) observation. -/
def processRef (w : World) (opts : Options) (ref : FlatpakRef) :
    Except RunError (List LogEntry × Option KeyFile × Option Json) := do
  let rl ← resolve_root w ref
  let md ← load_metadata_stage w opts ref rl.1
  let mf ← load_manifest_stage w opts ref rl.1
  .ok (rl.2, md, mf)

/-- `None` becomes JSON `null` under `json.dump`. -/
def jsonOfOpt : Option Json → Json
  | none => Json.null
  | some j => j

/-- One entry of the `result` list of `main` (lines 252-257): the per-ref
triple projected through `metadata_to_dict`. -/
def refEntry (w : World) (opts : Options) (ref : FlatpakRef) :
    Except RunError Json := do
  let o ← processRef w opts ref
  let mdj ← (metadata_to_dict o.2.1).mapError RunError.parse
  .ok (Json.obj [("ref", Json.str ref.format_ref),
                 ("metadata", jsonOfOpt mdj),
                 ("manifest", jsonOfOpt o.2.2)])

/-- The consumption loop of `main`: entries are accumulated in order and
the first fatal error aborts the whole run. -/
def buildEntries (w : World) (opts : Options) :
    List FlatpakRef → Except RunError (List Json)
  | [] => .ok []
  | ref :: rest => do
      let e ← refEntry w opts ref
      let es ← buildEntries w opts rest
      .ok (e :: es)

/-- The whole reporting run over the enumerated remote refs: selection,
per-ref orchestration, report assembly into one JSON array. -/
def run_report (w : World) (opts : Options)
    (allRefs : List FlatpakRef) : Except RunError Json :=
  (buildEntries w opts (selectRefs allRefs opts)).map Json.arr

/-- Whether a JSON value is an object or `null`. -/
def isObjOrNull : Json → Bool
  | Json.obj _ => true
  | Json.null => true
  | _ => false

/-- The observable outcome of `main` (lines 250-263 plus exit behaviour):
what is written to the configured output (nothing on a fatal error, since
`json.dump` runs only after the loop finished) and the exit code (`0` on
success, non-zero on an unhandled error). -/
def main_run (w : World) (opts : Options) (allRefs : List FlatpakRef) :
    Option Json × Nat :=
  match run_report w opts allRefs with
  | .ok j => (some j, 0)
  | .error _ => (none, 1)

/-- The argparse namespace when only the positional remote name is given
(every flag at its default). -/
def defaultArgs : Args :=
  { url := none, ref := none, no_pull := false, no_metadata := false,
    no_manifest := false, no_built_extensions := false, verbose := false,
    output := none, repo_name := "flathub" }

/-- A built-extension ref (name ends in `.Sources`) passing every other
filter. -/
def sourcesRef : FlatpakRef :=
  { format_ref := "runtime/org.foo.Sources/x86_64/stable"
    name := "org.foo.Sources"
    arch := "x86_64"
    eol := none
    eol_rebase := none
    metadata_bytes := "" }

/-- An ordinary application ref passing every filter. -/
def plainRef : FlatpakRef :=
  { format_ref := "app/org.foo.App/x86_64/stable"
    name := "org.foo.App"
    arch := "x86_64"
    eol := none
    eol_rebase := none
    metadata_bytes := "[Application]\nname=org.foo.App\n" }

/-- The keyfile of the projection example: group `Context` with
`shared=network;` and group `Extension org.foo.Locale` with
`autodelete=true`. -/
def exampleKeyFile : KeyFile :=
  ⟨[("Context", [("shared", "network;")]),
    ("Extension org.foo.Locale", [("autodelete", "true")])]⟩

/-- Options with everything enabled (the defaults of `main`). -/
def allOnOpts : Options := mkOptions defaultArgs

/-- Options that skip metadata but request manifests. -/
def manifestOnlyOpts : Options :=
  { remote_name := "flathub", remote_url := none, refs := none,
    pull := true, get_metadata := false, get_manifest := true,
    get_built_extensions := true }

/-- Options that skip both metadata and manifests. -/
def bareOpts : Options :=
  { remote_name := "flathub", remote_url := none, refs := none,
    pull := false, get_metadata := false, get_manifest := false,
    get_built_extensions := true }

/-- A world whose commit resolution always fails with `NOT_FOUND` and whose
keyfile parser accepts everything as the empty keyfile. -/
def nfWorld : World :=
  { read_commit := fun _ => .error (GErr.notFound "nf")
    load_file := fun _ _ => .error (GErr.otherErr "io")
    keyfile_of := fun _ => .ok ⟨[]⟩
    json_of := fun _ => .error "parse" }

/-- A world with a resolved root whose `/files/manifest.json` holds the
JSON array `[1]`. -/
def arrManifestWorld : World :=
  { read_commit := fun _ => .ok ⟨"root"⟩
    load_file := fun _ path =>
      if path = "files/manifest.json" then .ok "[1]"
      else .error (GErr.otherErr "io")
    keyfile_of := fun _ => .ok ⟨[]⟩
    json_of := fun bytes =>
      if bytes = "[1]" then .ok (Json.arr [Json.num 1])
      else .error "parse" }

/-- A world with a resolved root where every file read misses. -/
def emptyStoreWorld : World :=
  { read_commit := fun _ => .ok ⟨"root"⟩
    load_file := fun _ _ => .error (GErr.notFound "nf")
    keyfile_of := fun _ => .ok ⟨[]⟩
    json_of := fun _ => .error "parse" }

theorem strEndsWith_iff (s t : String) :
    strEndsWith s t = true ↔ ∃ p : String, s = p ++ t := by
  unfold strEndsWith
  rw [List.isSuffixOf_iff_suffix]
  constructor
  · rintro ⟨l, hl⟩
    refine ⟨⟨l⟩, String.ext ?_⟩
    simpa using hl.symm
  · rintro ⟨p, rfl⟩
    exact ⟨p.data, rfl⟩

theorem find_first {α : Type} (p : α → Bool) :
    ∀ l : List α,
      (l.find? p = none ∧ ∀ a ∈ l, p a = false) ∨
      (∃ l₁ a l₂, l = l₁ ++ a :: l₂ ∧ p a = true ∧
        (∀ b ∈ l₁, p b = false) ∧ l.find? p = some a) := by
  intro l
  induction l with
  | nil => exact Or.inl ⟨rfl, by simp⟩
  | cons a l ih =>
    cases h : p a with
    | true =>
      exact Or.inr ⟨[], a, l, rfl, h, by simp, by simp [List.find?, h]⟩
    | false =>
      rcases ih with ⟨hn, hall⟩ | ⟨l₁, b, l₂, heq, hb, hl₁, hf⟩
      · refine Or.inl ⟨by simp [List.find?, h, hn], ?_⟩
        intro x hx
        rcases List.mem_cons.mp hx with rfl | hx
        · exact h
        · exact hall x hx
      · refine Or.inr ⟨a :: l₁, b, l₂, by rw [heq]; rfl, hb, ?_, ?_⟩
        · intro x hx
          rcases List.mem_cons.mp hx with rfl | hx
          · exact h
          · exact hl₁ x hx
        · simp [List.find?, h, hf]

theorem selectStep_eq (opts : Options) (acc : List FlatpakRef)
    (ref : FlatpakRef) :
    selectStep opts acc ref =
      if keepRef opts ref then acc ++ [ref] else acc := by
  unfold selectStep keepRef
  cases h1 : pyTruthyOptList opts.refs && !pyElem ref.format_ref opts.refs <;>
    cases h2 : ref.arch != "x86_64" <;>
      cases h3 : pyTruthyOptStr ref.eol || pyTruthyOptStr ref.eol_rebase <;>
        cases h4 : !opts.get_built_extensions && is_built_extension ref.name <;>
          simp [h1, h2, h3, h4]

theorem selectRefs_foldl (opts : Options) :
    ∀ (l : List FlatpakRef) (acc : List FlatpakRef),
      l.foldl (selectStep opts) acc = acc ++ l.filter (keepRef opts) := by
  intro l
  induction l with
  | nil => intro acc; simp
  | cons a l ih =>
    intro acc
    rw [List.foldl_cons, selectStep_eq, ih]
    cases h : keepRef opts a <;> simp [List.filter_cons, h]

theorem selectRefs_eq_filter (allRefs : List FlatpakRef) (opts : Options) :
    selectRefs allRefs opts = allRefs.filter (keepRef opts) := by
  unfold selectRefs
  rw [selectRefs_foldl]
  simp

theorem pyElem_iff (x : String) (o : Option (List String)) :
    pyElem x o = true ↔ ∃ l, o = some l ∧ x ∈ l := by
  cases o with
  | none => simp [pyElem]
  | some l => simp [pyElem, List.elem_iff]

theorem keepRef_iff (opts : Options) (ref : FlatpakRef) :
    keepRef opts ref = true ↔
      ((pyTruthyOptList opts.refs = true →
          ∃ l, opts.refs = some l ∧ ref.format_ref ∈ l) ∧
       ref.arch = "x86_64" ∧
       pyTruthyOptStr ref.eol = false ∧
       pyTruthyOptStr ref.eol_rebase = false ∧
       (opts.get_built_extensions = false →
          is_built_extension ref.name = false)) := by
  unfold keepRef
  rw [← pyElem_iff]
  cases h1 : pyTruthyOptList opts.refs <;>
    cases h2 : pyElem ref.format_ref opts.refs <;>
      cases h3 : pyTruthyOptStr ref.eol <;>
        cases h4 : pyTruthyOptStr ref.eol_rebase <;>
          cases h5 : opts.get_built_extensions <;>
            cases h6 : is_built_extension ref.name <;>
              simp [bne_iff_ne]

/-- C2: the ref selector is a pure order-preserving filter: its output is
the input filtered by the survival predicate `keepRef` (hence a sub-sequence
of the input, never re-ordered or deduplicated), and a ref survives exactly
when it passes the allow-list membership test, has architecture `x86_64`,
has neither end-of-life field set, and passes the built-extension rule. -/
theorem ref_selector_pure_filter (allRefs : List FlatpakRef)
    (opts : Options) :
    selectRefs allRefs opts = allRefs.filter (keepRef opts) ∧
    List.Sublist (selectRefs allRefs opts) allRefs ∧
    (∀ ref : FlatpakRef, keepRef opts ref = true ↔
      ((pyTruthyOptList opts.refs = true →
          ∃ l, opts.refs = some l ∧ ref.format_ref ∈ l) ∧
       ref.arch = "x86_64" ∧
       pyTruthyOptStr ref.eol = false ∧
       pyTruthyOptStr ref.eol_rebase = false ∧
       (opts.get_built_extensions = false →
          is_built_extension ref.name = false))) := by
  refine ⟨selectRefs_eq_filter allRefs opts, ?_, fun ref => keepRef_iff opts ref⟩
  rw [selectRefs_eq_filter]
  exact List.filter_sublist allRefs

/-- Witness for C2 at a concrete input. -/
theorem ref_selector_pure_filter_witness :
    selectRefs [sourcesRef, plainRef] allOnOpts =
      List.filter (keepRef allOnOpts) [sourcesRef, plainRef] :=
  (ref_selector_pure_filter [sourcesRef, plainRef] allOnOpts).1

/-- C7: `is_built_extension` holds exactly on ids ending in `.Sources`,
`.Locale` or `.Debug`, with the boundary cases of the claim. -/
theorem built_extension_detection :
    (∀ app_id : String, is_built_extension app_id = true ↔
        ((∃ p : String, app_id = p ++ ".Sources") ∨
         (∃ p : String, app_id = p ++ ".Locale") ∨
         (∃ p : String, app_id = p ++ ".Debug"))) ∧
    is_built_extension "org.foo.Sources" = true ∧
    is_built_extension "org.foo.SourcesX" = false ∧
    is_built_extension "org.foo" = false := by
  refine ⟨?_, by decide, by decide, by decide⟩
  intro app_id
  unfold is_built_extension
  simp [Bool.or_eq_true, strEndsWith_iff, or_assoc]

/-- Witness for C7: the suffix characterization applied at a concrete id. -/
theorem built_extension_detection_witness :
    is_built_extension "a.Locale" = true :=
  (built_extension_detection.1 "a.Locale").mpr (Or.inr (Or.inl ⟨"a", rfl⟩))

/-- Counterexample to C1 as stated: with every flag at its default,
`opts.get_built_extensions` is `true` (the claim says `false`) and a
`.Sources` ref is kept in the working set (the claim says it is
excluded). -/
theorem built_extension_default_counterexample :
    (mkOptions defaultArgs).get_built_extensions = true ∧
    selectRefs [sourcesRef] (mkOptions defaultArgs) = [sourcesRef] := by
  constructor
  · rfl
  · rfl

/-- C1 as amended: `opts.get_built_extensions` is the negation of the
`--no-built-extensions` flag — so it is `true` by default (built-extension
refs included) and `false` when the flag is given — and the selector drops
a built-extension-named ref exactly when `opts.get_built_extensions` is
`false`, the other three filters being unaffected. -/
theorem built_extension_flag_amended (args : Args) (opts : Options)
    (ref : FlatpakRef) :
    (mkOptions args).get_built_extensions = !args.no_built_extensions ∧
    keepRef opts ref =
      (keepRefBase opts ref &&
        (opts.get_built_extensions || !is_built_extension ref.name)) := by
  constructor
  · rfl
  · unfold keepRef keepRefBase
    cases h5 : opts.get_built_extensions <;>
      cases h6 : is_built_extension ref.name <;>
        simp [h5, h6, Bool.and_assoc]

/-- Witness for C1's amended theorem at concrete inputs. -/
theorem built_extension_flag_amended_witness :
    (mkOptions defaultArgs).get_built_extensions =
        !defaultArgs.no_built_extensions ∧
    keepRef allOnOpts sourcesRef =
      (keepRefBase allOnOpts sourcesRef &&
        (allOnOpts.get_built_extensions ||
          !is_built_extension sourcesRef.name)) :=
  built_extension_flag_amended defaultArgs allOnOpts sourcesRef

/-- C3: for every (group, key) pair, `classify` returns the kind of the
first rule of the table (in its fixed order) whose group pattern fully
matches the group and whose key pattern fully matches the key, and
`string` when no rule matches; with the three concrete examples of the
claim. -/
theorem schema_classification :
    (∀ group key : String,
      ((∀ r ∈ MEATADATA_TYPES, ruleMatches r group key = false) ∧
        classify group key = MKind.string) ∨
      (∃ l₁ r l₂, MEATADATA_TYPES = l₁ ++ r :: l₂ ∧
        ruleMatches r group key = true ∧
        (∀ r0 ∈ l₁, ruleMatches r0 group key = false) ∧
        classify group key = r.2.2)) ∧
    classify "Extension org.foo.Bar" "autodelete" = MKind.boolK ∧
    classify "Context" "shared" = MKind.listK ∧
    classify "Random" "x" = MKind.string := by
  refine ⟨?_, by rfl, by rfl, by rfl⟩
  intro group key
  rcases find_first (fun r => ruleMatches r group key) MEATADATA_TYPES with
    ⟨hn, hall⟩ | ⟨l₁, r, l₂, heq, hr, hl₁, hf⟩
  · exact Or.inl ⟨hall, by simp [classify, hn]⟩
  · exact Or.inr ⟨l₁, r, l₂, heq, hr, hl₁, by simp [classify, hf]⟩

/-- Witness for C3: the first-match contract applied at a concrete pair. -/
theorem schema_classification_witness :
    classify "Extension org.foo.Bar" "autodelete" = MKind.boolK :=
  schema_classification.2.1

/-- C4: the projector routes the keys of a group named
`Extension <id>` into `result.Extension.<id>.<key>` and the keys of every
other group into `result.<group>.<key>`, each value decoded by its
classified kind; and the concrete two-group example of the claim projects
to the expected nested object. -/
theorem keyfile_projection (group key raw : String) (v : Json)
    (hv : get_value ⟨[(group, [(key, raw)])]⟩ group key = .ok v) :
    (strStartsWith group "Extension " = false →
      metadata_to_dict (some ⟨[(group, [(key, raw)])]⟩) =
        .ok (some (Json.obj [(group, Json.obj [(key, v)])]))) ∧
    (∀ tok ext_id, strStartsWith group "Extension " = true →
      pySplitMax1 group = [tok, ext_id] →
      metadata_to_dict (some ⟨[(group, [(key, raw)])]⟩) =
        .ok (some (Json.obj [("Extension",
          Json.obj [(ext_id, Json.obj [(key, v)])])]))) ∧
    metadata_to_dict (some exampleKeyFile) =
      .ok (some (Json.obj [
        ("Context", Json.obj [("shared", Json.arr [Json.str "network"])]),
        ("Extension", Json.obj [("org.foo.Locale",
          Json.obj [("autodelete", Json.bool true)])])])) := by
  refine ⟨?_, ?_, by rfl⟩
  · intro h
    simp [metadata_to_dict, KeyFile.get_groups, KeyFile.get_keys,
      projectGroups, projectGroup, projectKeyEntry, h, hv, assocGetD,
      asObj, assocSet, List.find?, Bind.bind, Except.bind]
  · intro tok ext_id h hsplit
    simp [metadata_to_dict, KeyFile.get_groups, KeyFile.get_keys,
      projectGroups, projectGroup, projectKeyEntry, h, hsplit, hv,
      assocGetD, asObj, assocSet, List.find?, Bind.bind, Except.bind]

/-- Witness for C4: the general routing statement applied at the group
`Context` with key `shared` and raw value `network;`. -/
theorem keyfile_projection_witness :
    metadata_to_dict (some ⟨[("Context", [("shared", "network;")])]⟩) =
      .ok (some (Json.obj [("Context",
        Json.obj [("shared", Json.arr [Json.str "network"])])])) :=
  (keyfile_projection "Context" "shared" "network;"
    (Json.arr [Json.str "network"]) (by rfl)).1 (by rfl)

/-- C10: a group name that starts with `Extension ` but whose remainder
contains internal whitespace is still routed by the projector under the
synthetic `Extension` entry (with the whole multi-token remainder as the
extension id), while the schema's anchored `Extension \S+` pattern does not
match such a name, so every key of that group is classified with the
default `string` kind and decoded with the string accessor. -/
theorem extension_routing_broader_than_schema :
    (∀ key : String, classify "Extension a b" key = MKind.string) ∧
    (∀ key raw : String,
      metadata_to_dict (some ⟨[("Extension a b", [(key, raw)])]⟩) =
        .ok (some (Json.obj [("Extension",
          Json.obj [("a b", Json.obj [(key, Json.str raw)])])]))) := by
  constructor
  · intro key
    have hnone :
        MEATADATA_TYPES.find? (fun r => ruleMatches r "Extension a b" key) =
          none := by
      rw [List.find?_eq_none]
      intro r hr
      have hg : r.1 "Extension a b" = false := by
        fin_cases hr <;> decide
      simp [ruleMatches, hg]
    simp [classify, hnone]
  · intro key raw
    have hcl : classify "Extension a b" key = MKind.string := by
      have hnone :
          MEATADATA_TYPES.find?
            (fun r => ruleMatches r "Extension a b" key) = none := by
        rw [List.find?_eq_none]
        intro r hr
        have hg : r.1 "Extension a b" = false := by
          fin_cases hr <;> decide
        simp [ruleMatches, hg]
      simp [classify, hnone]
    have h1 : strStartsWith "Extension a b" "Extension " = true := by decide
    have h2 : pySplitMax1 "Extension a b" = ["Extension", "a b"] := by
      decide
    simp [metadata_to_dict, KeyFile.get_groups, KeyFile.get_keys,
      projectGroups, projectGroup, projectKeyEntry, hcl, get_value,
      KeyFile.get_string, KeyFile.lookupRaw, assocGetD, asObj, assocSet,
      List.find?, Bind.bind, Except.bind, h1, h2, Except.map]

/-- Witness for C10 at a concrete key. -/
theorem extension_routing_broader_than_schema_witness :
    classify "Extension a b" "autodelete" = MKind.string :=
  extension_routing_broader_than_schema.1 "autodelete"

theorem bind_ok_elim {ε α β : Type} {x : Except ε α} {f : α → Except ε β}
    {b : β} (h : Bind.bind x f = Except.ok b) :
    ∃ a, x = Except.ok a ∧ f a = Except.ok b := by
  cases x with
  | error e => simp [Bind.bind, Except.bind] at h
  | ok a => exact ⟨a, rfl, by simpa [Bind.bind, Except.bind] using h⟩

theorem mapError_ok_elim {ε ε2 α : Type} {x : Except ε α} {f : ε → ε2}
    {a : α} (h : x.mapError f = Except.ok a) : x = Except.ok a := by
  cases x with
  | error e => simp [Except.mapError] at h
  | ok a0 => simpa [Except.mapError] using h

/-- C5: when the commit root of a selected ref cannot be resolved with a
`NOT_FOUND` condition, the failure is logged at error severity, the
metadata keyfile is loaded from the ref's embedded metadata bytes, and the
manifest is `none`; any other resolution failure propagates as a fatal
error; and when a root is resolved, the metadata is loaded from the local
`metadata` file under that root. -/
theorem metadata_fallback (w : World) (opts : Options) (ref : FlatpakRef)
    (hm : opts.get_metadata = true) :
    (∀ msg, w.read_commit ref.format_ref = .error (GErr.notFound msg) →
      resolve_root w ref = .ok (none, [LogEntry.errorLog msg]) ∧
      processRef w opts ref =
        Bind.bind ((w.keyfile_of ref.metadata_bytes).mapError RunError.parse)
          (fun kf => .ok ([LogEntry.errorLog msg], some kf, none))) ∧
    (∀ msg, w.read_commit ref.format_ref = .error (GErr.otherErr msg) →
      processRef w opts ref = .error (RunError.glib (GErr.otherErr msg))) ∧
    (∀ root, w.read_commit ref.format_ref = .ok root →
      load_metadata_stage w opts ref (some root) =
        Bind.bind ((w.load_file root "metadata").mapError RunError.glib)
          (fun bytes =>
            Bind.bind ((w.keyfile_of bytes).mapError RunError.parse)
              (fun kf => .ok (some kf)))) := by
  refine ⟨?_, ?_, ?_⟩
  · intro msg h
    have hr : resolve_root w ref = .ok (none, [LogEntry.errorLog msg]) := by
      simp [resolve_root, h, GErr.isNotFound, GErr.msg]
    refine ⟨hr, ?_⟩
    cases hk : w.keyfile_of ref.metadata_bytes <;>
      cases hgm : opts.get_manifest <;>
        simp [processRef, hr, load_metadata_stage, load_manifest_stage, hm,
          hgm, hk, Bind.bind, Except.bind, Except.mapError]
  · intro msg h
    simp [processRef, resolve_root, h, GErr.isNotFound, Bind.bind,
      Except.bind]
  · intro root h
    cases hl : w.load_file root "metadata" <;>
      simp [load_metadata_stage, hm, hl, Bind.bind, Except.bind,
        Except.mapError]

/-- Witness for C5 at a concrete world whose resolution fails with
`NOT_FOUND`. -/
theorem metadata_fallback_witness :
    resolve_root nfWorld plainRef = .ok (none, [LogEntry.errorLog "nf"]) ∧
    processRef nfWorld allOnOpts plainRef =
      Bind.bind ((nfWorld.keyfile_of plainRef.metadata_bytes).mapError
          RunError.parse)
        (fun kf => .ok ([LogEntry.errorLog "nf"], some kf, none)) :=
  (metadata_fallback nfWorld allOnOpts plainRef rfl).1 "nf" rfl

/-- C6: the manifest file is read and parsed only when manifests are
requested, a root was resolved, and the ref is not a built extension; when
any precondition fails the manifest is `none` (in particular there is no
embedded-bytes fallback when no root was resolved); a `NOT_FOUND` read
yields `none`, any other read error or a parse error is fatal; and in a
successful per-ref run the manifest is exactly what the manifest stage
produced for the resolved root. -/
theorem manifest_lookup (w : World) (opts : Options) (ref : FlatpakRef) :
    (load_manifest_stage w opts ref none = .ok none) ∧
    (∀ root, opts.get_manifest = false →
      load_manifest_stage w opts ref (some root) = .ok none) ∧
    (∀ root, is_built_extension ref.name = true →
      load_manifest_stage w opts ref (some root) = .ok none) ∧
    (∀ root, opts.get_manifest = true →
      is_built_extension ref.name = false →
      (∀ e, w.load_file root "files/manifest.json" = .error e →
        (e.isNotFound = true →
          load_manifest_stage w opts ref (some root) = .ok none) ∧
        (e.isNotFound = false →
          load_manifest_stage w opts ref (some root) =
            .error (RunError.glib e))) ∧
      (∀ bytes, w.load_file root "files/manifest.json" = .ok bytes →
        load_manifest_stage w opts ref (some root) =
          ((w.json_of bytes).mapError RunError.parse).map some)) ∧
    (∀ logs md mf, processRef w opts ref = .ok (logs, md, mf) →
      ∃ root?, resolve_root w ref = .ok (root?, logs) ∧
        load_manifest_stage w opts ref root? = .ok mf) := by
  refine ⟨?_, ?_, ?_, ?_, ?_⟩
  · cases hgm : opts.get_manifest <;>
      cases hb : is_built_extension ref.name <;>
        simp [load_manifest_stage, hgm, hb]
  · intro root hgm
    cases hb : is_built_extension ref.name <;>
      simp [load_manifest_stage, hgm, hb]
  · intro root hb
    cases hgm : opts.get_manifest <;>
      simp [load_manifest_stage, hgm, hb]
  · intro root hgm hb
    constructor
    · intro e he
      constructor <;> intro hnf <;>
        simp [load_manifest_stage, hgm, hb, he, hnf]
    · intro bytes hby
      simp [load_manifest_stage, hgm, hb, hby]
  · intro logs md mf h
    unfold processRef at h
    obtain ⟨rl, hr, h⟩ := bind_ok_elim h
    obtain ⟨md0, hmd, h⟩ := bind_ok_elim h
    obtain ⟨mf0, hmf, h⟩ := bind_ok_elim h
    obtain ⟨root?, logs0⟩ := rl
    injection h with h
    obtain ⟨h1, h2, h3⟩ : logs0 = logs ∧ md0 = md ∧ mf0 = mf := by
      simpa using h
    subst h1; subst h2; subst h3
    exact ⟨root?, hr, hmf⟩

/-- Witness for C6: the stage applied at a concrete world with a resolved
root and a missing manifest file. -/
theorem manifest_lookup_witness :
    load_manifest_stage emptyStoreWorld manifestOnlyOpts plainRef none =
      .ok none ∧
    load_manifest_stage emptyStoreWorld manifestOnlyOpts plainRef
        (some ⟨"root"⟩) = .ok none :=
  ⟨(manifest_lookup emptyStoreWorld manifestOnlyOpts plainRef).1,
   (((manifest_lookup emptyStoreWorld manifestOnlyOpts plainRef).2.2.2.1
      ⟨"root"⟩ rfl rfl).1 (GErr.notFound "nf") rfl).1 rfl⟩

theorem buildEntries_ok_mem (w : World) (opts : Options) :
    ∀ (l : List FlatpakRef) (es : List Json),
      buildEntries w opts l = .ok es →
      ∀ ref ∈ l, ∃ e, refEntry w opts ref = .ok e := by
  intro l
  induction l with
  | nil => intro es _ ref href; simp at href
  | cons a l ih =>
    intro es h ref href
    unfold buildEntries at h
    obtain ⟨e, he, h⟩ := bind_ok_elim h
    obtain ⟨es0, hes, _⟩ := bind_ok_elim h
    rcases List.mem_cons.mp href with rfl | hm
    · exact ⟨e, he⟩
    · exact ih es0 hes ref hm

theorem buildEntries_err (w : World) (opts : Options) :
    ∀ l : List FlatpakRef,
      (∃ ref ∈ l, ∃ er, refEntry w opts ref = .error er) →
      ∃ e, buildEntries w opts l = .error e := by
  intro l
  induction l with
  | nil => rintro ⟨ref, hm, _⟩; simp at hm
  | cons a l ih =>
    rintro ⟨ref, hmem, er, her⟩
    cases he : refEntry w opts a with
    | error e =>
      exact ⟨e, by simp [buildEntries, he, Bind.bind, Except.bind]⟩
    | ok ea =>
      rcases List.mem_cons.mp hmem with rfl | hm
      · rw [he] at her; simp at her
      · obtain ⟨e, hbe⟩ := ih ⟨ref, hm, er, her⟩
        exact ⟨e, by simp [buildEntries, he, hbe, Bind.bind, Except.bind]⟩

/-- C8: the JSON report reaches the configured output only when every
selected ref was processed successfully (exit code 0); when any selected
ref's processing raises a fatal error the run produces an error, nothing is
written to the output, and the exit code is non-zero. -/
theorem output_atomicity (w : World) (opts : Options)
    (allRefs : List FlatpakRef) :
    (∀ j, run_report w opts allRefs = .ok j →
      main_run w opts allRefs = (some j, 0) ∧
      ∀ ref ∈ selectRefs allRefs opts, ∃ e, refEntry w opts ref = .ok e) ∧
    ((∃ ref ∈ selectRefs allRefs opts, ∃ er,
        refEntry w opts ref = .error er) →
      ∃ e, run_report w opts allRefs = .error e ∧
        main_run w opts allRefs = (none, 1)) := by
  constructor
  · intro j h
    refine ⟨by simp [main_run, h], ?_⟩
    unfold run_report at h
    cases hb : buildEntries w opts (selectRefs allRefs opts) with
    | error e => rw [hb] at h; simp [Except.map] at h
    | ok es => exact buildEntries_ok_mem w opts _ es hb
  · intro hex
    obtain ⟨e, hbe⟩ := buildEntries_err w opts _ hex
    exact ⟨e, by simp [run_report, hbe, Except.map],
      by simp [main_run, run_report, hbe, Except.map]⟩

/-- Witness for C8 at a concrete successful run. -/
theorem output_atomicity_witness :
    main_run emptyStoreWorld bareOpts [plainRef] =
      (some (Json.arr [Json.obj
        [("ref", Json.str "app/org.foo.App/x86_64/stable"),
         ("metadata", Json.null), ("manifest", Json.null)]]), 0) ∧
    ∀ ref ∈ selectRefs [plainRef] bareOpts,
      ∃ e, refEntry emptyStoreWorld bareOpts ref = .ok e :=
  (output_atomicity emptyStoreWorld bareOpts [plainRef]).1
    (Json.arr [Json.obj
      [("ref", Json.str "app/org.foo.App/x86_64/stable"),
       ("metadata", Json.null), ("manifest", Json.null)]]) rfl

theorem metadata_to_dict_shape (md : Option KeyFile) (mdj : Option Json)
    (h : metadata_to_dict md = .ok mdj) :
    isObjOrNull (jsonOfOpt mdj) = true := by
  cases md with
  | none =>
    unfold metadata_to_dict at h
    injection h with h
    subst h
    rfl
  | some kf =>
    unfold metadata_to_dict at h
    obtain ⟨kvs, _, h⟩ := bind_ok_elim h
    injection h with h
    subst h
    rfl

theorem refEntry_shape (w : World) (opts : Options) (ref : FlatpakRef)
    (e : Json) (h : refEntry w opts ref = .ok e) :
    ∃ md mf, e = Json.obj [("ref", Json.str ref.format_ref),
      ("metadata", md), ("manifest", mf)] ∧ isObjOrNull md = true := by
  unfold refEntry at h
  obtain ⟨o, _, h⟩ := bind_ok_elim h
  obtain ⟨mdj, hm, h⟩ := bind_ok_elim h
  injection h with h
  exact ⟨jsonOfOpt mdj, jsonOfOpt o.2.2, h.symm,
    metadata_to_dict_shape o.2.1 mdj (mapError_ok_elim hm)⟩

theorem buildEntries_shape (w : World) (opts : Options) :
    ∀ (l : List FlatpakRef) (es : List Json),
      buildEntries w opts l = .ok es →
      List.Forall₂ (fun (ref : FlatpakRef) (e : Json) => ∃ md mf,
        e = Json.obj [("ref", Json.str ref.format_ref), ("metadata", md),
          ("manifest", mf)] ∧ isObjOrNull md = true) l es := by
  intro l
  induction l with
  | nil =>
    intro es h
    unfold buildEntries at h
    injection h with h
    subst h
    exact List.Forall₂.nil
  | cons a l ih =>
    intro es h
    unfold buildEntries at h
    obtain ⟨e, he, h⟩ := bind_ok_elim h
    obtain ⟨es0, hes, h⟩ := bind_ok_elim h
    injection h with h
    subst h
    exact List.Forall₂.cons (refEntry_shape w opts a e he) (ih es0 hes)

/-- C9 as amended: a successful run's output is a single JSON array with
one object per selected ref, in orchestration order, each with exactly the
keys `ref` (the ref's formatted string), `metadata` (an object or `null`)
and `manifest` (`null` or whatever JSON value the manifest file parsed to —
not necessarily an object). -/
theorem output_shape_amended (w : World) (opts : Options)
    (allRefs : List FlatpakRef) (j : Json)
    (h : run_report w opts allRefs = .ok j) :
    ∃ entries, j = Json.arr entries ∧
      List.Forall₂ (fun (ref : FlatpakRef) (e : Json) => ∃ md mf,
        e = Json.obj [("ref", Json.str ref.format_ref), ("metadata", md),
          ("manifest", mf)] ∧ isObjOrNull md = true)
        (selectRefs allRefs opts) entries := by
  unfold run_report at h
  cases hb : buildEntries w opts (selectRefs allRefs opts) with
  | error e => rw [hb] at h; simp [Except.map] at h
  | ok es =>
    rw [hb] at h
    simp only [Except.map] at h
    injection h with h
    exact ⟨es, h.symm, buildEntries_shape w opts _ es hb⟩

/-- Witness for C9's amended theorem at a concrete run. -/
theorem output_shape_amended_witness :
    ∃ entries,
      Json.arr [Json.obj [("ref", Json.str "app/org.foo.App/x86_64/stable"),
        ("metadata", Json.null), ("manifest", Json.null)]] =
          Json.arr entries ∧
      List.Forall₂ (fun (ref : FlatpakRef) (e : Json) => ∃ md mf,
        e = Json.obj [("ref", Json.str ref.format_ref), ("metadata", md),
          ("manifest", mf)] ∧ isObjOrNull md = true)
        (selectRefs [plainRef] bareOpts) entries :=
  output_shape_amended emptyStoreWorld bareOpts [plainRef]
    (Json.arr [Json.obj [("ref", Json.str "app/org.foo.App/x86_64/stable"),
      ("metadata", Json.null), ("manifest", Json.null)]]) rfl

/-- Counterexample to C9 as stated: when the manifest file holds the JSON
array `[1]`, the produced entry's `manifest` value is that array — neither
an object nor `null`. -/
theorem output_shape_counterexample :
    run_report arrManifestWorld manifestOnlyOpts [plainRef] =
      .ok (Json.arr [Json.obj
        [("ref", Json.str "app/org.foo.App/x86_64/stable"),
         ("metadata", Json.null),
         ("manifest", Json.arr [Json.num 1])]]) ∧
    isObjOrNull (Json.arr [Json.num 1]) = false := by
  constructor
  · rfl
  · rfl

end FlatpakRemoteMetadata
